import Mathlib

/-!
Shallow embedding of the `memory-kv-store` TTL key/value store
(`src/index.ts`).

Modelling conventions:
* JS numbers used as clock readings are modelled as `ℕ`; TTLs and the
  absolute `expiresAt` instants are modelled as `ℕ∞` (`WithTop ℕ`)
  because the code uses `Infinity` as the default TTL
  (`async set(key, value, ttl = Infinity)`), and `Infinity + t = Infinity`
  corresponds to `⊤ + t = ⊤`.
* A stored value has type `Option α`: the TypeScript signature is
  `set(key: string, value: T | undefined, ...)` and `undefined` is `none`.
* The backing `Map<string, {data, expiresAt}>` is modelled as an
  association list `List (String × Entry α)`.  `Map.set` replaces the
  entry in place when the key is present and appends otherwise;
  `Map.delete` removes the entry for the key (keys of a JS `Map` are
  unique, so removing every occurrence coincides with it).
* Methods are `async` but contain no `await`: every store mutation is
  synchronous, so they are modelled as pure functions on the store.
  `get` both returns a value and (possibly) mutates the store, hence it
  returns a pair `(result, newStore)`.
-/

namespace MemKV

/-- One stored record: `{ data: T; expiresAt: number }` from
`type InternalStore<T> = Map<string, { data: T; expiresAt: number }>`. -/
structure Entry (α : Type) where
  data : Option α
  expiresAt : ℕ∞
deriving DecidableEq

/-- The backing map `InternalStore<T>`, as an association list. -/
abbrev Store (α : Type) := List (String × Entry α)

/-- Model of `Map.prototype.get`: first entry whose key matches. -/
def lookupKey {α : Type} : Store α → String → Option (Entry α)
  | [], _ => none
  | (k', e) :: rest, k => if k' = k then some e else lookupKey rest k

/-- Model of `Map.prototype.set`: replace in place when the key is present,
append otherwise. -/
def mapSet {α : Type} : Store α → String → Entry α → Store α
  | [], k, e => [(k, e)]
  | (k', e') :: rest, k, e =>
    if k' = k then (k, e) :: rest else (k', e') :: mapSet rest k e

/-- Model of `Map.prototype.delete`: remove the entry for the key (keys are
unique in a JS `Map`, so removing all occurrences coincides). -/
def mapDelete {α : Type} : Store α → String → Store α
  | [], _ => []
  | (k', e') :: rest, k =>
    if k' = k then mapDelete rest k else (k', e') :: mapDelete rest k

namespace KV

/-- Source `async set(key, value, ttl = Infinity) {
  this._store.set(key, { data: value, expiresAt: ttl + this._time() });
}`.  A call site that omits `ttl` passes `⊤` here (the JS default
`Infinity`). -/
def set {α : Type} (st : Store α) (now : ℕ) (key : String) (value : Option α)
    (ttl : ℕ∞) : Store α :=
  mapSet st key ⟨value, ttl + now⟩

/-- Source `async get(key)`: look the key up; when present and
`expiresAt > this._time()` return its data, when present and expired
delete it from the store, otherwise return `undefined`.  The pair is
(returned value, store after the call). -/
def get {α : Type} (st : Store α) (now : ℕ) (key : String) :
    Option α × Store α :=
  match lookupKey st key with
  | some result =>
    if (now : ℕ∞) < result.expiresAt then (result.data, st)
    else (none, mapDelete st key)
  | none => (none, st)

/-- Source `async delete(key) { this._store.delete(key); }`. -/
def delete {α : Type} (st : Store α) (key : String) : Store α :=
  mapDelete st key

/-- Source `async bulkSet(keys, values, ttls = [])`: for each index in order,
`this.set(key, values[index], ttls[index])` — a missing `values[index]`
is `undefined` (`none`) and a missing `ttls[index]` is `undefined`,
which triggers `set`'s `Infinity` default (`⊤`). -/
def bulkSet {α : Type} (st : Store α) (now : ℕ) :
    List String → List (Option α) → List ℕ∞ → Store α
  | [], _, _ => st
  | key :: keys, values, ttls =>
    bulkSet (set st now key (values.head?.getD none) (ttls.head?.getD ⊤))
      now keys values.tail ttls.tail

/-- Source `async bulkGet(keys)`: `Promise.all(keys.map((key) => this.get(key)))`;
each `get` runs its (synchronous) body in input order, so the store
threads left to right and the results keep the input order. -/
def bulkGet {α : Type} (st : Store α) (now : ℕ) :
    List String → List (Option α) × Store α
  | [] => ([], st)
  | key :: keys =>
    let r := get st now key
    let rest := bulkGet r.2 now keys
    (r.1 :: rest.1, rest.2)

/-- Source `async bulkDelete(keys)`: delete each key. -/
def bulkDelete {α : Type} (st : Store α) : List String → Store α
  | [] => st
  | key :: keys => bulkDelete (delete st key) keys

end KV

/-- The observable state of one `KV` instance, together with the trace
of its interactions with the `delay` service:
* `ttl` is `_ttl` (`KV_TTL`, a JS number that may be `Infinity`);
* `store` is `_store`;
* `currentDelay` models `_currentDelay` (`some ()` for a tracked delay
  promise, `none` for `null`);
* `createCalls` records the argument of each `delay.create` call, in
  order;
* `clearCalls` counts the `delay.clear` invocations. -/
structure KVState (α : Type) where
  ttl : ℕ∞
  store : Store α
  currentDelay : Option Unit
  createCalls : List ℕ∞
  clearCalls : ℕ
deriving DecidableEq

/-- Source `_kvServiceRenew()`: if `this._currentDelay` is non-null, call
`delay.clear` on it (logged, never fatal); then
`this._currentDelay = this._delay.create(this._ttl)` — one creation
call with `_ttl` as its argument. -/
def kvServiceRenew {α : Type} (s : KVState α) : KVState α :=
  let s1 :=
    if s.currentDelay.isSome then { s with clearCalls := s.clearCalls + 1 }
    else s
  { s1 with
      currentDelay := some ()
      createCalls := s1.createCalls ++ [s1.ttl] }

/-- Source `_kvServiceClear()`: `this._store = new Map(); this._currentDelay =
null; this._kvServiceRenew();`. -/
def kvServiceClear {α : Type} (s : KVState α) : KVState α :=
  kvServiceRenew { s with store := [], currentDelay := none }

/-- The constructor: store the injected dependencies
(`this._ttl = ttl; this._store = store; this._currentDelay = null;`)
then run `this._kvServiceClear()`.  `store` is the injected `KV_STORE`
(default a fresh empty map) and `ttl` is `KV_TTL`. -/
def construct {α : Type} (ttl : ℕ∞) (store : Store α) : KVState α :=
  kvServiceClear
    { ttl := ttl, store := store, currentDelay := none,
      createCalls := [], clearCalls := 0 }

/-- The outstanding delay promise resolving:
`this._currentDelay.then(this._kvServiceClear.bind(this))` runs
`_kvServiceClear` on the instance. -/
def fireTimer {α : Type} (s : KVState α) : KVState α :=
  kvServiceClear s

/-- One public single-key operation, tagged with the clock reading the
store's `time` dependency returns during the call. -/
inductive KVOp (α : Type) where
  | setOp (now : ℕ) (key : String) (value : Option α) (ttl : ℕ∞)
  | getOp (now : ℕ) (key : String)
  | delOp (key : String)
deriving DecidableEq

/-- Whether an operation is a write (set) or delete of the given key —
the operations excluded by the never-expires round-trip property. -/
def KVOp.writesKey {α : Type} : KVOp α → String → Bool
  | .setOp _ key _ _, k => key == k
  | .delOp key, k => key == k
  | .getOp _ _, _ => false

/-- Effect of one public single-key operation on the backing store. -/
def applyOp {α : Type} (st : Store α) : KVOp α → Store α
  | .setOp now key value ttl => KV.set st now key value ttl
  | .getOp now key => (KV.get st now key).2
  | .delOp key => KV.delete st key

/-- Effect of a sequence of public single-key operations. -/
def applyOps {α : Type} (st : Store α) (ops : List (KVOp α)) : Store α :=
  ops.foldl applyOp st

/-- States of a `KV` instance reachable through construction, the public
operations and clear-timer firings (a firing needs an outstanding
delay). -/
inductive Reachable {α : Type} : KVState α → Prop
  | construct (ttl : ℕ∞) (store : Store α) : Reachable (construct ttl store)
  | setStep (s : KVState α) (now : ℕ) (key : String) (value : Option α)
      (ttl : ℕ∞) : Reachable s →
      Reachable { s with store := KV.set s.store now key value ttl }
  | getStep (s : KVState α) (now : ℕ) (key : String) : Reachable s →
      Reachable { s with store := (KV.get s.store now key).2 }
  | delStep (s : KVState α) (key : String) : Reachable s →
      Reachable { s with store := KV.delete s.store key }
  | bulkSetStep (s : KVState α) (now : ℕ) (keys : List String)
      (values : List (Option α)) (ttls : List ℕ∞) : Reachable s →
      Reachable { s with store := KV.bulkSet s.store now keys values ttls }
  | bulkGetStep (s : KVState α) (now : ℕ) (keys : List String) :
      Reachable s →
      Reachable { s with store := (KV.bulkGet s.store now keys).2 }
  | bulkDelStep (s : KVState α) (keys : List String) : Reachable s →
      Reachable { s with store := KV.bulkDelete s.store keys }
  | fireStep (s : KVState α) : Reachable s → s.currentDelay.isSome →
      Reachable (fireTimer s)

/-! Helper lemmas about the association-list map operations. -/

theorem lookupKey_mapSet_self {α : Type} (st : Store α) (k : String)
    (e : Entry α) : lookupKey (mapSet st k e) k = some e := by
  induction st with
  | nil => simp [mapSet, lookupKey]
  | cons p rest ih =>
    obtain ⟨k', e'⟩ := p
    by_cases h : k' = k
    · simp [mapSet, h, lookupKey]
    · simp [mapSet, h, lookupKey, ih]

theorem lookupKey_mapSet_ne {α : Type} (st : Store α) (k k' : String)
    (e : Entry α) (h : k' ≠ k) :
    lookupKey (mapSet st k e) k' = lookupKey st k' := by
  induction st with
  | nil => simp [mapSet, lookupKey, Ne.symm h]
  | cons p rest ih =>
    obtain ⟨k'', e''⟩ := p
    by_cases hk : k'' = k
    · subst hk
      simp [mapSet, lookupKey, Ne.symm h]
    · simp [mapSet, hk, lookupKey, ih]

theorem lookupKey_mapDelete_self {α : Type} (st : Store α) (k : String) :
    lookupKey (mapDelete st k) k = none := by
  induction st with
  | nil => simp [mapDelete, lookupKey]
  | cons p rest ih =>
    obtain ⟨k', e'⟩ := p
    by_cases h : k' = k
    · simp [mapDelete, h, ih]
    · simp [mapDelete, h, lookupKey, ih]

theorem lookupKey_mapDelete_ne {α : Type} (st : Store α) (k k' : String)
    (h : k' ≠ k) : lookupKey (mapDelete st k) k' = lookupKey st k' := by
  induction st with
  | nil => simp [mapDelete]
  | cons p rest ih =>
    obtain ⟨k'', e''⟩ := p
    by_cases hk : k'' = k
    · subst hk
      simp [mapDelete, lookupKey, Ne.symm h, ih]
    · simp [mapDelete, hk, lookupKey, ih]

theorem mapDelete_mapDelete {α : Type} (st : Store α) (k : String) :
    mapDelete (mapDelete st k) k = mapDelete st k := by
  induction st with
  | nil => simp [mapDelete]
  | cons p rest ih =>
    obtain ⟨k', e'⟩ := p
    by_cases h : k' = k
    · simp [mapDelete, h, ih]
    · simp [mapDelete, h, ih]

theorem mapDelete_of_lookupKey_none {α : Type} (st : Store α) (k : String)
    (h : lookupKey st k = none) : mapDelete st k = st := by
  induction st with
  | nil => simp [mapDelete]
  | cons p rest ih =>
    obtain ⟨k', e'⟩ := p
    by_cases hk : k' = k
    · simp [lookupKey, hk] at h
    · simp [lookupKey, hk] at h
      simp [mapDelete, hk, ih h]

/-! Helper lemmas about `get`. -/

theorem get_of_lookup_none {α : Type} (st : Store α) (now : ℕ) (k : String)
    (h : lookupKey st k = none) : KV.get st now k = (none, st) := by
  simp [KV.get, h]

theorem get_of_lookup_live {α : Type} (st : Store α) (now : ℕ) (k : String)
    (e : Entry α) (h : lookupKey st k = some e)
    (hlt : (now : ℕ∞) < e.expiresAt) : KV.get st now k = (e.data, st) := by
  simp [KV.get, h, hlt]

theorem get_of_lookup_expired {α : Type} (st : Store α) (now : ℕ)
    (k : String) (e : Entry α) (h : lookupKey st k = some e)
    (hge : e.expiresAt ≤ (now : ℕ∞)) :
    KV.get st now k = (none, mapDelete st k) := by
  simp [KV.get, h, not_lt.mpr hge]

theorem lookupKey_get_snd_ne {α : Type} (st : Store α) (now : ℕ)
    (key k : String) (h : k ≠ key) :
    lookupKey (KV.get st now key).2 k = lookupKey st k := by
  unfold KV.get
  cases hl : lookupKey st key with
  | none => rfl
  | some e =>
    by_cases hlt : (now : ℕ∞) < e.expiresAt
    · simp [hlt]
    · simp [hlt, lookupKey_mapDelete_ne st key k h]

theorem get_snd_of_top {α : Type} (st : Store α) (now : ℕ) (k : String)
    (e : Entry α) (h : lookupKey st k = some e) (he : e.expiresAt = ⊤) :
    (KV.get st now k).2 = st := by
  have hlt : (now : ℕ∞) < e.expiresAt := by
    rw [he]; exact ENat.coe_lt_top now
  rw [get_of_lookup_live st now k e h hlt]

/-! Preservation of a never-expiring entry by operations on other keys
(and by reads of any key). -/

theorem lookupKey_applyOp_of_top {α : Type} (st : Store α) (op : KVOp α)
    (k : String) (e : Entry α) (hw : KVOp.writesKey op k = false)
    (hl : lookupKey st k = some e) (he : e.expiresAt = ⊤) :
    lookupKey (applyOp st op) k = some e := by
  cases op with
  | setOp now key value ttl =>
    have hk : k ≠ key := by
      intro hkk
      simp [KVOp.writesKey, hkk] at hw
    rw [applyOp, KV.set, lookupKey_mapSet_ne st key k _ hk, hl]
  | getOp now key =>
    by_cases hk : key = k
    · subst hk
      rw [applyOp, get_snd_of_top st now key e hl he, hl]
    · rw [applyOp, lookupKey_get_snd_ne st now key k (Ne.symm hk), hl]
  | delOp key =>
    have hk : k ≠ key := by
      intro hkk
      simp [KVOp.writesKey, hkk] at hw
    rw [applyOp, KV.delete, lookupKey_mapDelete_ne st key k hk, hl]

theorem lookupKey_applyOps_of_top {α : Type} (st : Store α)
    (ops : List (KVOp α)) (k : String) (e : Entry α)
    (hw : ∀ op ∈ ops, KVOp.writesKey op k = false)
    (hl : lookupKey st k = some e) (he : e.expiresAt = ⊤) :
    lookupKey (applyOps st ops) k = some e := by
  induction ops generalizing st with
  | nil => exact hl
  | cons op ops ih =>
    rw [applyOps, List.foldl_cons]
    exact ih (applyOp st op)
      (fun o ho => hw o (List.mem_cons_of_mem op ho))
      (lookupKey_applyOp_of_top st op k e (hw op (List.mem_cons_self op ops))
        hl he)

/-! Helper lemmas about `bulkSet`. -/

theorem lookupKey_bulkSet_of_notMem {α : Type} (st : Store α) (now : ℕ)
    (keys : List String) (values : List (Option α)) (ttls : List ℕ∞)
    (k : String) (h : k ∉ keys) :
    lookupKey (KV.bulkSet st now keys values ttls) k = lookupKey st k := by
  induction keys generalizing st values ttls with
  | nil => rfl
  | cons key keys ih =>
    have hk : k ≠ key := fun hkk => h (hkk ▸ List.mem_cons_self key keys)
    have hrest : k ∉ keys := fun hkk => h (List.mem_cons_of_mem key hkk)
    rw [KV.bulkSet, ih _ _ _ hrest, KV.set,
      lookupKey_mapSet_ne st key k _ hk]

/-- Claim C1: after `set key value ttl` at clock reading `writeTime`,
a `get` of that key at clock reading `now` sees the entry iff
`writeTime + ttl > now`: at a reading strictly greater than
`writeTime + ttl` it returns no value and physically removes the entry
from the backing map as part of that read, and at a reading strictly
smaller it returns the stored value and leaves the store untouched. -/
theorem get_after_set_visibility {α : Type} (st : Store α)
    (writeTime now : ℕ) (k : String) (v : Option α) (ttl : ℕ∞) :
    KV.get (KV.set st writeTime k v ttl) now k =
      (if (now : ℕ∞) < (writeTime : ℕ∞) + ttl then
        (v, KV.set st writeTime k v ttl)
      else (none, KV.delete (KV.set st writeTime k v ttl) k)) ∧
    ((writeTime : ℕ∞) + ttl < (now : ℕ∞) →
      (KV.get (KV.set st writeTime k v ttl) now k).1 = none ∧
      lookupKey (KV.get (KV.set st writeTime k v ttl) now k).2 k = none) ∧
    ((now : ℕ∞) < (writeTime : ℕ∞) + ttl →
      (KV.get (KV.set st writeTime k v ttl) now k).1 = v ∧
      (KV.get (KV.set st writeTime k v ttl) now k).2 =
        KV.set st writeTime k v ttl) := by
  have hl : lookupKey (KV.set st writeTime k v ttl) k =
      some ⟨v, (writeTime : ℕ∞) + ttl⟩ := by
    rw [KV.set, lookupKey_mapSet_self, add_comm ttl ((writeTime : ℕ∞))]
  by_cases hc : (now : ℕ∞) < (writeTime : ℕ∞) + ttl
  · have hlive := get_of_lookup_live (KV.set st writeTime k v ttl) now k
      _ hl hc
    refine ⟨by rw [if_pos hc, hlive], fun hgt => (lt_asymm hc hgt).elim,
      fun _ => by rw [hlive]; exact ⟨rfl, rfl⟩⟩
  · have hexp := get_of_lookup_expired (KV.set st writeTime k v ttl) now k
      _ hl (not_lt.mp hc)
    refine ⟨by rw [if_neg hc, hexp]; rfl,
      fun _ => by rw [hexp]; exact ⟨rfl, lookupKey_mapDelete_self _ k⟩,
      fun hlt => (hc hlt).elim⟩

/-- Concrete instance of claim C1 at `writeTime = 0`, `ttl = 5`: a read
at clock 10 misses and a read at clock 3 hits. -/
theorem get_after_set_visibility_witness :
    (KV.get (KV.set ([] : Store ℕ) 0 "a" (some 1) 5) 10 "a").1 = none ∧
    (KV.get (KV.set ([] : Store ℕ) 0 "a" (some 1) 5) 3 "a").1 = some 1 :=
  ⟨((get_after_set_visibility ([] : Store ℕ) 0 10 "a" (some 1) 5).2.1
      (by decide)).1,
    ((get_after_set_visibility ([] : Store ℕ) 0 3 "a" (some 1) 5).2.2
      (by decide)).1⟩

/-- Claim C2 (code bug): the constructor runs `_kvServiceClear()`,
which replaces `this._store` with a fresh empty map, so the injected
`KV_STORE` never becomes the backing map — right after construction the
backing map is empty whatever `KV_STORE` held, and entries seeded in it
are unreadable. -/
theorem construct_discards_injected_store {α : Type} (ttl : ℕ∞)
    (store : Store α) (now : ℕ) (k : String) :
    (construct ttl store).store = [] ∧
    (KV.get (construct ttl store).store now k).1 = none := by
  constructor
  · rfl
  · rfl

/-- Claim C3 counterexample: `set('k', 42, ttl=0)` at clock 5 followed
by `get('k')` at the same clock reading 5 does not return 42 — the
strict comparison `expiresAt > now` already fails when `now` equals the
expiry instant. -/
theorem ttl_zero_same_instant_counterexample :
    (KV.get (KV.set ([] : Store ℕ) 5 "k" (some 42) 0) 5 "k").1 ≠
      some 42 := by
  decide

/-- Claim C3 as amended: after `set k v (ttl := 0)` at clock reading
`T`, a `get` at the same reading `T` already returns no value (and
removes the entry), because the strict inequality fails as soon as the
reading is not strictly below the expiry instant; a `get` at `T + 1`
returns no value as well. -/
theorem ttl_zero_expires_at_write_instant {α : Type} (st : Store α)
    (T : ℕ) (k : String) (v : Option α) :
    (KV.get (KV.set st T k v 0) T k).1 = none ∧
    lookupKey (KV.get (KV.set st T k v 0) T k).2 k = none ∧
    (KV.get (KV.set st T k v 0) (T + 1) k).1 = none := by
  have hl : lookupKey (KV.set st T k v 0) k = some ⟨v, (T : ℕ∞)⟩ := by
    rw [KV.set, lookupKey_mapSet_self, zero_add]
  have h1 := get_of_lookup_expired (KV.set st T k v 0) T k _ hl (le_refl _)
  have h2 := get_of_lookup_expired (KV.set st T k v 0) (T + 1) k _ hl
    (show (T : ℕ∞) ≤ ((T + 1 : ℕ) : ℕ∞) by exact_mod_cast Nat.le_succ T)
  rw [h1, h2]
  exact ⟨rfl, lookupKey_mapDelete_self _ k, rfl⟩

/-- Claim C4: an entry written with no `ttl` (the `Infinity` default)
never expires on its own — after any sequence of public single-key
operations none of which overwrites or deletes that key, a `get` at any
clock reading still returns the stored value unchanged. -/
theorem set_without_ttl_never_expires {α : Type} (st : Store α) (t : ℕ)
    (k : String) (v : Option α) (ops : List (KVOp α)) (now : ℕ)
    (hw : ∀ op ∈ ops, KVOp.writesKey op k = false) :
    (KV.get (applyOps (KV.set st t k v ⊤) ops) now k).1 = v := by
  have hl : lookupKey (KV.set st t k v ⊤) k = some ⟨v, ⊤⟩ := by
    rw [KV.set, lookupKey_mapSet_self, top_add]
  have hl2 := lookupKey_applyOps_of_top _ ops k ⟨v, ⊤⟩ hw hl rfl
  rw [get_of_lookup_live _ now k _ hl2 (ENat.coe_lt_top now)]

/-- Concrete instance of claim C4: a value written with no `ttl` at
clock 0 survives writes and deletes of another key and a read of its
own key, and is still read back at clock 1000000. -/
theorem set_without_ttl_never_expires_witness :
    (KV.get (applyOps (KV.set ([] : Store ℕ) 0 "a" (some 1) ⊤)
      [KVOp.setOp 2 "b" (some 2) 7, KVOp.getOp 3 "a", KVOp.delOp "b"])
      1000000 "a").1 = some 1 :=
  set_without_ttl_never_expires ([] : Store ℕ) 0 "a" (some 1)
    [KVOp.setOp 2 "b" (some 2) 7, KVOp.getOp 3 "a", KVOp.delOp "b"]
    1000000 (by decide)

/-- Claim C5: when the whole-store clear timer fires, the map is
replaced by a fresh empty one (every previously set key reads back as
no value regardless of its own expiry), and exactly one new timer is
created, with the same `storeTTL` (`_ttl`) as its argument. -/
theorem fireTimer_clears_and_rearms {α : Type} (s : KVState α)
    (now : ℕ) (k : String) :
    (fireTimer s).store = [] ∧
    (KV.get (fireTimer s).store now k).1 = none ∧
    (fireTimer s).createCalls = s.createCalls ++ [s.ttl] ∧
    (fireTimer s).ttl = s.ttl := by
  exact ⟨rfl, rfl, rfl, rfl⟩

/-- Claim C6 counterexample: with the duplicated key list
`["a", "a"]` and values `[1, 2]`, `bulkSet` then `bulkGet` returns
`[2, 2]`, not the input sequence `[1, 2]` — the second write overwrites
the first, so the round trip fails for lists with repeated keys. -/
theorem bulkSet_bulkGet_duplicate_keys_counterexample :
    (KV.bulkGet (KV.bulkSet ([] : Store ℕ) 0 ["a", "a"]
      [some 1, some 2] []) 0 ["a", "a"]).1 ≠ [some 1, some 2] := by
  decide

/-- Claim C6 as amended: for pairwise distinct keys and an equally long
value list, `bulkSet keys values` followed by `bulkGet keys` (at any
clock readings) returns exactly the value sequence, in input order,
including `none` placeholders at indices whose value was undefined. -/
theorem bulkSet_bulkGet_nodup_roundtrip {α : Type} (st : Store α)
    (now now' : ℕ) (keys : List String) (values : List (Option α))
    (hnd : keys.Nodup) (hlen : values.length = keys.length) :
    (KV.bulkGet (KV.bulkSet st now keys values []) now' keys).1 =
      values := by
  induction keys generalizing st values with
  | nil =>
    rw [List.length_eq_zero.mp hlen]
    rfl
  | cons key keys ih =>
    cases values with
    | nil =>
      simp only [List.length_nil, List.length_cons] at hlen
      omega
    | cons v vs =>
      obtain ⟨hkey, hnd'⟩ := List.nodup_cons.mp hnd
      have hlen' : vs.length = keys.length := by
        simp only [List.length_cons] at hlen
        omega
      rw [KV.bulkSet]
      simp only [List.head?_cons, Option.getD_some, List.tail_cons,
        List.head?_nil, Option.getD_none, List.tail_nil]
      have hl1 : lookupKey
          (KV.bulkSet (KV.set st now key v ⊤) now keys vs []) key =
          some ⟨v, ⊤⟩ := by
        rw [lookupKey_bulkSet_of_notMem _ now keys vs [] key hkey,
          KV.set, lookupKey_mapSet_self, top_add]
      have hget := get_of_lookup_live
        (KV.bulkSet (KV.set st now key v ⊤) now keys vs []) now' key
        _ hl1 (ENat.coe_lt_top now')
      rw [KV.bulkGet, hget]
      simp only []
      rw [ih (KV.set st now key v ⊤) vs hnd' hlen']

/-- Concrete instance of claim C6 (amended): two distinct keys, the
second with an undefined value, read back in input order. -/
theorem bulkSet_bulkGet_nodup_roundtrip_witness :
    (KV.bulkGet (KV.bulkSet ([] : Store ℕ) 0 ["a", "b"]
      [some 1, none] []) 7 ["a", "b"]).1 = [some 1, none] :=
  bulkSet_bulkGet_nodup_roundtrip ([] : Store ℕ) 0 7 ["a", "b"]
    [some 1, none] (by decide) (by decide)

/-- Lookup after `bulkSet` at an index beyond the end of `ttls`, when
the key does not occur again later: the entry carries the
never-expiring `⊤` timestamp, exactly as a `set` with no `ttl`. -/
theorem lookupKey_bulkSet_missing_ttl {α : Type} (st : Store α)
    (now : ℕ) (keys : List String) (values : List (Option α))
    (ttls : List ℕ∞) (i : ℕ) (k : String) (hk : keys[i]? = some k)
    (ht : ttls.length ≤ i) (hafter : k ∉ keys.drop (i + 1)) :
    lookupKey (KV.bulkSet st now keys values ttls) k =
      some ⟨(values[i]?).getD none, ⊤⟩ := by
  induction keys generalizing st values ttls i with
  | nil => simp at hk
  | cons key keys ih =>
    cases i with
    | zero =>
      have hkey : key = k := by simpa using hk
      subst hkey
      have httls : ttls = [] :=
        List.length_eq_zero.mp (Nat.le_zero.mp ht)
      subst httls
      have hafter' : key ∉ keys := by simpa using hafter
      rw [KV.bulkSet,
        lookupKey_bulkSet_of_notMem _ now keys _ _ key hafter']
      simp only [List.head?_nil, Option.getD_none, List.tail_nil]
      rw [KV.set, lookupKey_mapSet_self, top_add,
        ← List.head?_eq_getElem? values]
    | succ j =>
      have ht' : ttls.tail.length ≤ j := by
        rw [List.length_tail]
        omega
      have hk' : keys[j]? = some k := by simpa using hk
      have hafter' : k ∉ keys.drop (j + 1) := by
        simpa [List.drop_succ_cons] using hafter
      rw [KV.bulkSet, ih _ values.tail ttls.tail j hk' ht' hafter',
        List.getElem?_tail]

/-- Claim C7: in `bulkSet keys values ttls` with `ttls` shorter than
`keys` (in particular when it is omitted, `ttls = []`), every index `i`
beyond the end of `ttls` whose key does not recur later is written
exactly as a `set` with no `ttl`: its entry never expires, so a `get`
at any clock reading returns that value. -/
theorem bulkSet_missing_ttl_never_expires {α : Type} (st : Store α)
    (now : ℕ) (keys : List String) (values : List (Option α))
    (ttls : List ℕ∞) (i : ℕ) (k : String) (hk : keys[i]? = some k)
    (ht : ttls.length ≤ i) (hafter : k ∉ keys.drop (i + 1)) :
    lookupKey (KV.bulkSet st now keys values ttls) k =
      some ⟨(values[i]?).getD none, ⊤⟩ ∧
    ∀ t : ℕ, (KV.get (KV.bulkSet st now keys values ttls) t k).1 =
      (values[i]?).getD none := by
  have hl := lookupKey_bulkSet_missing_ttl st now keys values ttls i k
    hk ht hafter
  refine ⟨hl, fun t => ?_⟩
  rw [get_of_lookup_live _ t k _ hl (ENat.coe_lt_top t)]

/-- Concrete instance of claim C7: three keys, only one `ttl` supplied;
the key at index 1 gets the never-expiring default and is read back at
a very late clock reading. -/
theorem bulkSet_missing_ttl_never_expires_witness :
    lookupKey (KV.bulkSet ([] : Store ℕ) 0 ["a", "b", "c"]
      [some 1, some 2, some 3] [4]) "b" = some ⟨some 2, ⊤⟩ ∧
    ∀ t : ℕ, (KV.get (KV.bulkSet ([] : Store ℕ) 0 ["a", "b", "c"]
      [some 1, some 2, some 3] [4]) t "b").1 = some 2 :=
  bulkSet_missing_ttl_never_expires ([] : Store ℕ) 0 ["a", "b", "c"]
    [some 1, some 2, some 3] [4] 1 "b" (by decide) (by decide)
    (by decide)

/-- Claim C8: `delete` unconditionally removes the entry, so a
subsequent `get` of that key yields no value; `delete` is idempotent;
and on an absent key both `delete` (a no-op leaving the store
unchanged) and `get` (no value, store unchanged) are total — absence is
never an error. -/
theorem delete_removes_and_is_idempotent {α : Type} (st : Store α)
    (now : ℕ) (k : String) :
    (KV.get (KV.delete st k) now k).1 = none ∧
    KV.delete (KV.delete st k) k = KV.delete st k ∧
    (lookupKey st k = none →
      KV.delete st k = st ∧ KV.get st now k = (none, st)) := by
  refine ⟨?_, mapDelete_mapDelete st k, fun h =>
    ⟨mapDelete_of_lookupKey_none st k h, get_of_lookup_none st now k h⟩⟩
  rw [get_of_lookup_none (KV.delete st k) now k
    (lookupKey_mapDelete_self st k)]

/-- Concrete instance of claim C8: deleting the absent key `"b"` in a
one-entry store is a no-op, and reading it back yields no value. -/
theorem delete_removes_and_is_idempotent_witness :
    KV.delete ([("a", ⟨some 1, ⊤⟩)] : Store ℕ) "b" =
      [("a", ⟨some 1, ⊤⟩)] ∧
    (KV.get (KV.delete ([("a", ⟨some 1, ⊤⟩)] : Store ℕ) "b") 0 "b").1 =
      none :=
  ⟨((delete_removes_and_is_idempotent ([("a", ⟨some 1, ⊤⟩)] : Store ℕ)
      0 "b").2.2 (by decide)).1,
    (delete_removes_and_is_idempotent ([("a", ⟨some 1, ⊤⟩)] : Store ℕ)
      0 "b").1⟩

/-- Claim C9: in every state reachable through construction, the public
operations and clear-timer firings, `delay.clear` has never been
invoked — `_kvServiceRenew` is only entered via `_kvServiceClear`,
which nulls `_currentDelay` first, so the cancellation branch is
unreachable. -/
theorem reachable_never_cancels_delay {α : Type} (s : KVState α)
    (h : Reachable s) : s.clearCalls = 0 := by
  induction h with
  | construct ttl store => rfl
  | setStep s now key value ttl hs ih => exact ih
  | getStep s now key hs ih => exact ih
  | delStep s key hs ih => exact ih
  | bulkSetStep s now keys values ttls hs ih => exact ih
  | bulkGetStep s now keys hs ih => exact ih
  | bulkDelStep s keys hs ih => exact ih
  | fireStep s hs hsome ih => exact ih

/-- Concrete instance of claim C9: after construction, a write, and a
timer firing, no `delay.clear` call has happened. -/
theorem reachable_never_cancels_delay_witness :
    (fireTimer { (construct (5 : ℕ∞) ([] : Store ℕ)) with
      store := KV.set (construct (5 : ℕ∞) ([] : Store ℕ)).store 0 "a"
        (some 1) ⊤ }).clearCalls = 0 :=
  reachable_never_cancels_delay _
    (Reachable.fireStep _
      (Reachable.setStep _ 0 "a" (some 1) ⊤ (Reachable.construct 5 []))
      (by decide))

/-- Claim C10: every single-key operation affects at most its own key —
`set` and `delete` of `k` leave every other key's entry unchanged, and
`get k` leaves the map unchanged except that, exactly when the entry at
`k` exists and is expired at the read instant, the entry at `k` is
removed. -/
theorem single_key_ops_frame {α : Type} (st : Store α) (now : ℕ)
    (k k' : String) (v : Option α) (ttl : ℕ∞) (h : k' ≠ k) :
    lookupKey (KV.set st now k v ttl) k' = lookupKey st k' ∧
    lookupKey (KV.delete st k) k' = lookupKey st k' ∧
    lookupKey (KV.get st now k).2 k' = lookupKey st k' ∧
    (lookupKey st k = none → (KV.get st now k).2 = st) ∧
    (∀ e : Entry α, lookupKey st k = some e →
      (now : ℕ∞) < e.expiresAt → (KV.get st now k).2 = st) ∧
    (∀ e : Entry α, lookupKey st k = some e →
      e.expiresAt ≤ (now : ℕ∞) →
      (KV.get st now k).2 = KV.delete st k) := by
  refine ⟨lookupKey_mapSet_ne st k k' _ h,
    lookupKey_mapDelete_ne st k k' h,
    lookupKey_get_snd_ne st now k k' h, ?_, ?_, ?_⟩
  · intro hn
    rw [get_of_lookup_none st now k hn]
  · intro e he hlt
    rw [get_of_lookup_live st now k e he hlt]
  · intro e he hge
    rw [get_of_lookup_expired st now k e he hge]
    rfl

/-- Concrete instance of claim C10: setting key `"a"` leaves the entry
for key `"b"` unchanged. -/
theorem single_key_ops_frame_witness :
    lookupKey (KV.set ([("b", ⟨some 2, ⊤⟩)] : Store ℕ) 0 "a"
      (some 1) 5) "b" = lookupKey ([("b", ⟨some 2, ⊤⟩)] : Store ℕ) "b" :=
  (single_key_ops_frame ([("b", ⟨some 2, ⊤⟩)] : Store ℕ) 0 "a" "b"
    (some 1) 5 (by decide)).1

end MemKV
